import Mathlib

/-!
Verification of the HLO pass-pipeline specification of this repository
against its source files.

The repository is a study journal around a tensor compiler's high-level
optimizer.  The code it actually carries under version control is:

* tensorflow/compiler/xla/service/rounding.{h,cc} - a custom pass attempt;
* week9/multi_simplification.cc - a second custom pass attempt (class
  Multisimple, with its header appended in the same file);
* tensorflow/compiler/xla/service/gpu/nvptx_compiler.cc - the pipeline
  caller that instantiates HloPassPipeline, HloPassFix, HloVerifier,
  HloDCE and HloConstantFolding.

The implementations of the pipeline engine, the verifier and the standard
passes are not part of the repository (only the caller above is), so those
components are modelled from the specification text; each such definition
carries a doc comment starting with "Modelled from the spec:".  The two
custom passes are embedded from their source files directly.
-/

/-- Opcode of an HLO instruction.  Closed enum following the data model of
the spec (arithmetic ops, control ops, data movement, parameter, constant,
custom-call, and the side-effecting infeed/outfeed). -/
inductive HloOpcode
  | parameter
  | constant
  | add
  | multiply
  | negate
  | tuple
  | getTupleElement
  | whileLoop
  | conditional
  | call
  | infeed
  | outfeed
  | customCall
  deriving DecidableEq, Repr

/-- Element type of a shape (the model only needs a few representatives). -/
inductive ElementType
  | f32
  | s32
  | pred
  deriving DecidableEq, Repr

/-- Output shape of an instruction: element type plus dimension sizes. -/
structure Shape where
  elementType : ElementType
  dimensions : List Nat
  deriving DecidableEq, Repr

/-- An HLO instruction: unique id, opcode, ordered operand references
(ids of instructions of the same computation), output shape, and the
literal payload of a constant.  Exactly representable floating-point
constants of the examples are carried as their integer values. -/
structure HloInstruction where
  id : Nat
  opcode : HloOpcode
  operands : List Nat
  shape : Shape
  literal : Option Int
  deriving DecidableEq, Repr

/-- An HLO computation: its instruction list (list order is the original
insertion order) and the id of the distinguished root instruction. -/
structure HloComputation where
  instructions : List HloInstruction
  rootId : Nat
  deriving DecidableEq, Repr

/-- An HLO module: the compilation unit, a collection of computations. -/
structure HloModule where
  computations : List HloComputation
  deriving DecidableEq, Repr

/-! ## The rounding pass (rounding.h / rounding.cc)

The body of rounding::Run in rounding.cc iterates over
module->MakeComputationPostOrder() and over each computation's
instructions, and sets a local flag `changed` when an instruction is
different from computation->root_instruction() and matches the rewrite
pattern.  The pattern expression in the source, `instruction == add`,
references an entity that is declared nowhere, so the pattern is kept
abstract here as a boolean predicate parameter `p`. -/

/-- The rewrite-candidate test of rounding::Run (rounding.cc lines 40-44):
an instruction is a candidate exactly when it differs from the
computation's root instruction and matches the pattern `p`. -/
def rounding.candidate (p : HloInstruction → Bool) (c : HloComputation)
    (i : HloInstruction) : Bool :=
  (i.id != c.rootId) && p i

/-- The local `changed` flag computed by the two loops of rounding::Run:
true exactly when some instruction of some computation is a rewrite
candidate. -/
def rounding.changedFlag (p : HloInstruction → Bool) (m : HloModule) : Bool :=
  m.computations.any fun c => c.instructions.any fun i => rounding.candidate p c i

/-- rounding::Run as written in rounding.cc.  The body initializes
`changed`, runs the two loops, and then reaches the closing brace of the
function without executing any return statement: the line
`return changed;` of the source file stands after the function's closing
brace, at namespace scope.  The produced result is therefore `none`
(no StatusOr value is ever constructed on any path). -/
def rounding.RunLiteral (p : HloInstruction → Bool) (m : HloModule) : Option Bool :=
  let changed := rounding.changedFlag p m
  let _ := changed
  none

/-! ## The Multisimple pass (week9/multi_simplification.cc)

The class declaration (appended header part of the file) declares exactly
two data members, both const, fixed by the explicit constructor
`Multisimple(bool is_folat_mul, bool only_fusion_computations = false)`.
The Run body in the implementation part is an incomplete fragment: it
contains no assignment to any member and ends without a return
statement. -/

/-- The Multisimple pass object: its only members are the two const
configuration flags of the class declaration. -/
structure Multisimple where
  is_folat_mul_ : Bool
  only_fusion_computations_ : Bool
  deriving DecidableEq, Repr

/-- The explicit two-argument constructor of Multisimple: it initializes
is_folat_mul_ and only_fusion_computations_ from its arguments. -/
def Multisimple.ctor (a : Bool) (b : Bool) : Multisimple := ⟨a, b⟩

/-- The one-argument form of the constructor: the source declares the
default argument only_fusion_computations = false. -/
def Multisimple.ctorDefault (a : Bool) : Multisimple := Multisimple.ctor a false

/-- Multisimple::Run, modelled as a method with explicit receiver
threading: next to its result it returns the receiver as it stands after
the call.  In the source the body is an incomplete fragment that contains
no assignment to any member (both members are const), so the receiver
after the call is the receiver itself; the body also reaches its end
without a return statement, so no boolean result is produced. -/
def Multisimple.RunMethod (p : Multisimple) (m : HloModule) :
    Option Bool × Multisimple :=
  (none, p)

/-! ## Pass pipeline engine (modelled from the spec)

nvptx_compiler.cc builds an HloPassPipeline, installs an HloVerifier as
invariant checker, and nests an HloPassFix fixed-point sub-pipeline; the
implementations of those classes are not part of the repository, so they
are modelled from the specification text of sections 2, 4.2 and 7. -/

/-- Modelled from the spec: the error taxonomy of section 7 (the pipeline
engine and graph-primitive implementations are missing from the
repository; only nvptx_compiler.cc instantiates them). -/
inductive PassError
  | typeMismatch
  | invalidOperandCount
  | shapeMismatch
  | instructionInUse
  | convergenceExceeded
  | invariantViolation
  deriving DecidableEq, Repr

/-- Modelled from the spec: a Pass is a function of a Module to a boolean
changed flag plus possible fatal-error signal (section 3, Pass/Pipeline);
the successor module state stands next to the flag because the embedding
is purely functional. -/
abbrev HloPass := HloModule → Except PassError (Bool × HloModule)

/-- Modelled from the spec: the pass loop of HloPassPipeline::Run (missing
from the repository) from the first pass on.  Each pass runs strictly in
sequence; after every pass the invariant checker runs, and a detected
violation aborts the pipeline at once. -/
def pipelineGo (checker : HloModule → Except PassError Unit)
    (passes : List HloPass) (m : HloModule) (ch : Bool) :
    Except PassError (Bool × HloModule) :=
  match passes with
  | [] => Except.ok (ch, m)
  | p :: ps =>
    match p m with
    | Except.error e => Except.error e
    | Except.ok (c, m') =>
      match checker m' with
      | Except.error e => Except.error e
      | Except.ok _ => pipelineGo checker ps m' (ch || c)

/-- Modelled from the spec: HloPassPipeline::Run (missing from the
repository): the invariant checker runs before the first pass, then the
pass loop takes over. -/
def runPipeline (checker : HloModule → Except PassError Unit)
    (passes : List HloPass) (m : HloModule) :
    Except PassError (Bool × HloModule) :=
  match checker m with
  | Except.error e => Except.error e
  | Except.ok _ => pipelineGo checker passes m false

/-- Modelled from the spec: HloPassFix (missing from the repository), the
fixed-point wrapper instantiated as the "simplification" sub-pipeline in
nvptx_compiler.cc: it reruns the inner pipeline until a full inner run
reports no change, or the iteration budget is exhausted, in which case it
fails with ConvergenceExceeded.  The recursion is structural on the
remaining budget, so every run terminates by construction. -/
def fixedPointRun (inner : HloModule → Except PassError (Bool × HloModule)) :
    Nat → HloModule → Bool → Except PassError (Bool × HloModule)
  | 0, _, _ => Except.error PassError.convergenceExceeded
  | n + 1, m, ch =>
    match inner m with
    | Except.error e => Except.error e
    | Except.ok (false, m') => Except.ok (ch, m')
    | Except.ok (true, m') => fixedPointRun inner n m' true

/-! ## Structural invariants and representative passes (modelled from
the spec) -/

/-- Finds the instruction of a computation carrying a given id. -/
def lookupInst (c : HloComputation) (i : Nat) : Option HloInstruction :=
  c.instructions.find? fun j => j.id == i

/-- reachesIn c n a b: starting from the instruction with id a, the id b
can be reached through at least one and at most n operand (data
dependency) edges. -/
def reachesIn (c : HloComputation) : Nat → Nat → Nat → Bool
  | 0, _, _ => false
  | n + 1, a, b =>
    match lookupInst c a with
    | none => false
    | some i => i.operands.contains b || i.operands.any fun o => reachesIn c n o b

/-- A computation has a data cycle when some instruction reaches itself
through operand edges (a cycle visits at most as many instructions as the
computation holds, so that length bounds the search depth). -/
def hasDataCycle (c : HloComputation) : Bool :=
  c.instructions.any fun i => reachesIn c c.instructions.length i.id i.id

/-- Acyclicity of the operand graph of every computation of a module. -/
def moduleAcyclic (m : HloModule) : Bool :=
  m.computations.all fun c => ! hasDataCycle c

/-- Modelled from the spec: the HloVerifier invariant checker (missing
from the repository; nvptx_compiler.cc only installs it), restricted to
the acyclicity invariant that claim C4 is about: it rejects a module
whose operand graph has a data cycle. -/
def acyclicityChecker (m : HloModule) : Except PassError Unit :=
  if moduleAcyclic m then Except.ok () else Except.error PassError.invariantViolation

/-- Opcodes with an externally visible side effect, which dead-code
elimination must never remove. -/
def hasSideEffect : HloOpcode → Bool
  | HloOpcode.infeed => true
  | HloOpcode.outfeed => true
  | HloOpcode.customCall => true
  | _ => false

/-- An instruction id has a consumer when some instruction of the list
references it as an operand. -/
def hasConsumer (insts : List HloInstruction) (i : Nat) : Bool :=
  insts.any fun j => j.operands.contains i

/-- Modelled from the spec: the removal test of dead-code elimination
(HloDCE is missing from the repository): removable exactly when the
instruction has zero consumers, is not the root, is not a parameter and
has no externally visible side effect. -/
def removableDead (c : HloComputation) (i : HloInstruction) : Bool :=
  ! (i.id == c.rootId) && ! (i.opcode == HloOpcode.parameter) &&
    ! hasSideEffect i.opcode && ! hasConsumer c.instructions i.id

/-- One removal round of dead-code elimination: drops every instruction
that is removable right now. -/
def dceRound (c : HloComputation) : HloComputation :=
  { c with instructions := c.instructions.filter fun i => ! removableDead c i }

/-- The removal loop of dead-code elimination: repeats removal rounds
until a round removes nothing, within a budget that a strictly shrinking
instruction list cannot exhaust; the boolean accumulates the changed
flag. -/
def dceLoop : Nat → HloComputation → Bool → Bool × HloComputation
  | 0, c, ch => (ch, c)
  | n + 1, c, ch =>
    if (dceRound c).instructions.length == c.instructions.length then (ch, c)
    else dceLoop n (dceRound c) true

/-- Modelled from the spec: dead-code elimination on one computation
(HloDCE is missing from the repository): removal rounds to a fixed
point. -/
def dceRunOnComputation (c : HloComputation) : Bool × HloComputation :=
  dceLoop c.instructions.length c false

/-- Modelled from the spec: the HloDCE pass over a whole module: each
computation is cleaned independently and the changed flags are joined. -/
def dceRun (m : HloModule) : Bool × HloModule :=
  ((m.computations.map dceRunOnComputation).any fun r => r.1,
    ⟨(m.computations.map dceRunOnComputation).map fun r => r.2⟩)

/-- The literal value of an operand id when it names a constant
instruction of the computation. -/
def constValue (c : HloComputation) (i : Nat) : Option Int :=
  match lookupInst c i with
  | some j => if j.opcode == HloOpcode.constant then j.literal else none
  | none => none

/-- Modelled from the spec: the evaluator of constant folding for the
arithmetic opcodes of the model; it yields a value exactly when every
operand is a compile-time constant, and stays silent (no rewrite)
elsewhere. -/
def evalConstantClosure (c : HloComputation) (i : HloInstruction) : Option Int :=
  match i.opcode, i.operands with
  | HloOpcode.add, [a, b] =>
    match constValue c a, constValue c b with
    | some x, some y => some (x + y)
    | _, _ => none
  | HloOpcode.multiply, [a, b] =>
    match constValue c a, constValue c b with
    | some x, some y => some (x * y)
    | _, _ => none
  | HloOpcode.negate, [a] =>
    match constValue c a with
    | some x => some (-x)
    | none => none
  | _, _ => none

/-- One round of constant folding: every instruction whose operand
closure evaluates becomes a constant instruction carrying the computed
literal, keeping its id and shape. -/
def foldRound (c : HloComputation) : HloComputation :=
  { c with instructions := c.instructions.map fun i =>
      match evalConstantClosure c i with
      | some v => HloInstruction.mk i.id HloOpcode.constant [] i.shape (some v)
      | none => i }

/-- Iterated folding rounds, enough of them to exhaust any nest of
constant subexpressions of the computation. -/
def foldIter : Nat → HloComputation → HloComputation
  | 0, c => c
  | n + 1, c => foldIter n (foldRound c)

/-- After folding, the constant operands absorbed into folded
instructions have no consumer left; dropping them completes the
replacement of the whole constant subgraph by the single folded
constant. -/
def dropDeadConstants (c : HloComputation) : HloComputation :=
  { c with instructions := c.instructions.filter fun i =>
      ! (i.opcode == HloOpcode.constant && ! (i.id == c.rootId) &&
        ! hasConsumer c.instructions i.id) }

/-- Modelled from the spec: the HloConstantFolding pass on one
computation (missing from the repository): it replaces a subgraph whose
entire operand closure is compile-time constant by one constant
instruction carrying the evaluated literal. -/
def constantFoldingRun (c : HloComputation) : HloComputation :=
  dropDeadConstants (foldIter c.instructions.length c)

/-- Modelled from the spec: the arity contract of the opcodes the model
constrains; none means the opcode is variadic in the model. -/
def opcodeArity : HloOpcode → Option Nat
  | HloOpcode.parameter => some 0
  | HloOpcode.constant => some 0
  | HloOpcode.add => some 2
  | HloOpcode.multiply => some 2
  | HloOpcode.negate => some 1
  | HloOpcode.getTupleElement => some 1
  | _ => none

/-- The elementwise opcodes, whose operands must agree with the result
shape. -/
def isElementwise : HloOpcode → Bool
  | HloOpcode.add => true
  | HloOpcode.multiply => true
  | HloOpcode.negate => true
  | _ => false

/-- Shape compatibility test of the construction primitive: an
elementwise opcode requires every operand to exist and to carry exactly
the result shape; other opcodes are unconstrained in the model. -/
def operandShapesCompatible (c : HloComputation) (opcode : HloOpcode)
    (operands : List Nat) (shape : Shape) : Bool :=
  ! isElementwise opcode ||
    operands.all fun o =>
      match lookupInst c o with
      | some j => j.shape == shape
      | none => false

/-- Modelled from the spec: the add_instruction construction primitive
(the graph API implementation is missing from the repository).  All
checks run before any mutation: wrong arity fails with
InvalidOperandCount, incompatible operand shapes fail with TypeMismatch,
and only then is the new instruction (fresh id n) appended.  On failure
the returned computation is the input itself. -/
def add_instruction (c : HloComputation) (opcode : HloOpcode)
    (operands : List Nat) (shape : Shape) (n : Nat) :
    HloComputation × Option PassError :=
  match opcodeArity opcode with
  | some k =>
    if operands.length == k then
      if operandShapesCompatible c opcode operands shape then
        ({ c with instructions :=
            c.instructions ++ [HloInstruction.mk n opcode operands shape none] },
          none)
      else (c, some PassError.typeMismatch)
    else (c, some PassError.invalidOperandCount)
  | none =>
    if operandShapesCompatible c opcode operands shape then
      ({ c with instructions :=
          c.instructions ++ [HloInstruction.mk n opcode operands shape none] },
        none)
    else (c, some PassError.typeMismatch)

/-- Modelled from the spec: the replace_instruction rewrite primitive
(missing from the repository).  The shape check runs first: when the new
instruction's shape is not assignable where the old one stood (also when
either id names no instruction), the call fails with ShapeMismatch and
the returned computation is the input itself; otherwise every consumer of
the old id is redirected to the new one and root status transfers. -/
def replace_instruction (c : HloComputation) (oldId newId : Nat) :
    HloComputation × Option PassError :=
  match lookupInst c oldId, lookupInst c newId with
  | some oldI, some newI =>
    if oldI.shape == newI.shape then
      (HloComputation.mk
        (c.instructions.map fun j =>
          { j with operands := j.operands.map fun o => if o == oldId then newId else o })
        (if c.rootId == oldId then newId else c.rootId),
        none)
    else (c, some PassError.shapeMismatch)
  | _, _ => (c, some PassError.shapeMismatch)

/-- Modelled from the spec: the remove_instruction primitive (missing
from the repository): removal of a still-referenced or root instruction
fails with InstructionInUse and the returned computation is the input
itself; otherwise the instruction is detached. -/
def remove_instruction (c : HloComputation) (i : Nat) :
    HloComputation × Option PassError :=
  if hasConsumer c.instructions i || c.rootId == i then
    (c, some PassError.instructionInUse)
  else
    ({ c with instructions := c.instructions.filter fun j => ! (j.id == i) }, none)

/-! ## Concrete computations for witnesses and examples -/

/-- A module with no computations, used for concrete runs. -/
def emptyModule : HloModule := ⟨[]⟩

/-- A pass that changes nothing and reports changed = false. -/
def idPass : HloPass := fun m => Except.ok (false, m)

/-- An invariant checker that rejects every module. -/
def failChecker : HloModule → Except PassError Unit :=
  fun _ => Except.error PassError.invariantViolation

/-- An inner pipeline that immediately reports no change. -/
def innerNoChange : HloModule → Except PassError (Bool × HloModule) :=
  fun m => Except.ok (false, m)

/-- An inner pipeline that reports a change on every run (an oscillating
pass combination, the case the convergence guard exists for). -/
def innerAlwaysChange : HloModule → Except PassError (Bool × HloModule) :=
  fun m => Except.ok (true, m)

/-- The scalar f32 shape of the worked examples. -/
def f32Scalar : Shape := ⟨ElementType.f32, []⟩

/-- constant(2.0) of the constant-folding round-trip example. -/
def exConst2 : HloInstruction := ⟨0, HloOpcode.constant, [], f32Scalar, some 2⟩

/-- constant(3.0) of the constant-folding round-trip example. -/
def exConst3 : HloInstruction := ⟨1, HloOpcode.constant, [], f32Scalar, some 3⟩

/-- add(constant(2.0), constant(3.0)) of the round-trip example. -/
def exAdd : HloInstruction := ⟨2, HloOpcode.add, [0, 1], f32Scalar, none⟩

/-- The computation of the round-trip example, rooted at the add. -/
def exComp : HloComputation := ⟨[exConst2, exConst3, exAdd], 2⟩

/-- The constant(5.0) the round-trip example must fold to: same id and
shape as the add it replaces. -/
def exFolded : HloInstruction := ⟨2, HloOpcode.constant, [], f32Scalar, some 5⟩

/-- A parameter instruction, consumed by negInst below. -/
def paramInst : HloInstruction := ⟨0, HloOpcode.parameter, [], f32Scalar, none⟩

/-- negate(parameter), the root of exUseComp. -/
def negInst : HloInstruction := ⟨1, HloOpcode.negate, [0], f32Scalar, none⟩

/-- A computation where the parameter is still referenced and the negate
is root: removal of either must be rejected. -/
def exUseComp : HloComputation := ⟨[paramInst, negInst], 1⟩

/-- The one-computation module around exUseComp. -/
def exUseModule : HloModule := ⟨[exUseComp]⟩

/-! ## Theorems for claims C1, C9, C10 -/

/-- Claim C1 (code_bug evidence): rounding::Run produces no boolean
changed flag on any execution path.  The claim (and the header's own
comment) says Run returns whether the module has been changed, but the
source body ends before any return statement: the `return changed;` line
lies outside the function's closing brace. -/
theorem rounding_Run_produces_no_result (p : HloInstruction → Bool)
    (m : HloModule) : rounding.RunLiteral p m = none := rfl

/-- Claim C9: the rounding pass never treats a computation's root
instruction as a rewrite candidate: whenever the changed flag computed by
rounding::Run is set, some instruction different from its computation's
root instruction matched the pattern; the comparison with
root_instruction() is the first conjunct of the candidate test. -/
theorem rounding_changed_only_by_nonroot (p : HloInstruction → Bool)
    (m : HloModule) (h : rounding.changedFlag p m = true) :
    ∃ c ∈ m.computations, ∃ i ∈ c.instructions, i.id ≠ c.rootId ∧ p i = true := by
  simpa [rounding.changedFlag, rounding.candidate, List.any_eq_true,
    Bool.and_eq_true, bne_iff_ne] using h

/-- Concrete run of rounding_changed_only_by_nonroot: a computation whose
root is a constant (id 1) and that holds a non-root multiply (id 0). -/
theorem rounding_changed_only_by_nonroot_witness :
    ∃ c ∈ (HloModule.mk [HloComputation.mk
        [HloInstruction.mk 0 HloOpcode.multiply [] (Shape.mk ElementType.f32 []) none,
         HloInstruction.mk 1 HloOpcode.constant [] (Shape.mk ElementType.f32 []) (some 0)]
        1]).computations,
      ∃ i ∈ c.instructions, i.id ≠ c.rootId ∧
        (fun j => j.opcode == HloOpcode.multiply) i = true :=
  rounding_changed_only_by_nonroot (fun j => j.opcode == HloOpcode.multiply) _ (by decide)

/-- Claim C10: Multisimple carries no mutable state: the constructor fixes
the two const configuration flags, an invocation of Run leaves the pass
object exactly as constructed, and a second invocation on the same module
state returns the same result as the first. -/
theorem Multisimple_const_config_stateless (a b : Bool) (m : HloModule) :
    (Multisimple.ctor a b).is_folat_mul_ = a ∧
    (Multisimple.ctor a b).only_fusion_computations_ = b ∧
    ((Multisimple.ctor a b).RunMethod m).2 = Multisimple.ctor a b ∧
    (((Multisimple.ctor a b).RunMethod m).2.RunMethod m).1
      = ((Multisimple.ctor a b).RunMethod m).1 :=
  ⟨rfl, rfl, rfl, rfl⟩

/-! ## Theorems for claims C2, C3 -/

/-- Claim C2: the fixed-point sub-pipeline reruns its inner pass list
until a full inner run reports no change; when the iteration budget is
exhausted it fails with ConvergenceExceeded rather than silently
truncating (first and third conjuncts), and a normal result is only
produced after an inner run that reported no change (second conjunct).
Termination of every run holds by construction: fixedPointRun is a total
function, structurally recursive on the budget. -/
theorem fixedPoint_converges_or_reports
    (inner : HloModule → Except PassError (Bool × HloModule)) (cap : Nat)
    (m m' : HloModule) (ch r : Bool) :
    (fixedPointRun inner 0 m ch = Except.error PassError.convergenceExceeded) ∧
    (fixedPointRun inner cap m ch = Except.ok (r, m') →
      ∃ m₀, inner m₀ = Except.ok (false, m')) ∧
    ((∀ m₀, ∃ m₁, inner m₀ = Except.ok (true, m₁)) →
      fixedPointRun inner cap m ch = Except.error PassError.convergenceExceeded) := by
  refine ⟨rfl, ?_, ?_⟩
  · induction cap generalizing m ch with
    | zero => intro h; simp [fixedPointRun] at h
    | succ n ih =>
      intro h
      unfold fixedPointRun at h
      cases hp : inner m with
      | error e => rw [hp] at h; simp at h
      | ok bc =>
        obtain ⟨b, m₁⟩ := bc
        cases b with
        | false =>
          rw [hp] at h
          simp only [Except.ok.injEq, Prod.mk.injEq] at h
          exact ⟨m, by rw [hp, h.2]⟩
        | true =>
          rw [hp] at h
          exact ih m₁ true h
  · intro hall
    induction cap generalizing m ch with
    | zero => rfl
    | succ n ih =>
      obtain ⟨m₁, hm₁⟩ := hall m
      unfold fixedPointRun
      rw [hm₁]
      exact ih m₁ true

/-- Concrete runs of fixedPoint_converges_or_reports: an inner pipeline
that reports no change stabilizes at once, and one that always reports a
change exhausts a budget of 3 and fails with ConvergenceExceeded. -/
theorem fixedPoint_converges_or_reports_witness :
    (∃ m₀, innerNoChange m₀ = Except.ok (false, emptyModule)) ∧
    fixedPointRun innerAlwaysChange 3 emptyModule false
      = Except.error PassError.convergenceExceeded :=
  ⟨(fixedPoint_converges_or_reports innerNoChange 1 emptyModule emptyModule
      false false).2.1 rfl,
   (fixedPoint_converges_or_reports innerAlwaysChange 3 emptyModule emptyModule
      false false).2.2 (fun m₀ => ⟨m₀, rfl⟩)⟩

/-- Claim C3: the invariant checker runs before the first pass (a
pre-check failure aborts the whole run), and after every pass: when the
checker rejects a pass's output the pipeline stops with that error, and
the result does not depend on the passes that follow the failing one - no
later pass runs. -/
theorem pipeline_checker_gates_every_pass
    (checker : HloModule → Except PassError Unit)
    (passes rest rest' : List HloPass) (p : HloPass) (m m' : HloModule)
    (e : PassError) (ch c : Bool) :
    (checker m = Except.error e → runPipeline checker passes m = Except.error e) ∧
    (p m = Except.ok (c, m') → checker m' = Except.error e →
      pipelineGo checker (p :: rest) m ch = Except.error e ∧
      pipelineGo checker (p :: rest) m ch = pipelineGo checker (p :: rest') m ch) := by
  constructor
  · intro h
    unfold runPipeline
    rw [h]
  · intro hp hc
    have hgo : ∀ tail : List HloPass,
        pipelineGo checker (p :: tail) m ch = Except.error e := by
      intro tail
      simp [pipelineGo, hp, hc]
    exact ⟨hgo rest, by rw [hgo rest, hgo rest']⟩

/-- Concrete run of pipeline_checker_gates_every_pass: a checker that
rejects every module aborts the pipeline before any pass, and aborts
right after the first pass with no dependence on later passes. -/
theorem pipeline_checker_gates_every_pass_witness :
    runPipeline failChecker [] emptyModule
        = Except.error PassError.invariantViolation ∧
    pipelineGo failChecker [idPass] emptyModule false
        = Except.error PassError.invariantViolation :=
  ⟨(pipeline_checker_gates_every_pass failChecker [] [] [] idPass emptyModule
      emptyModule PassError.invariantViolation false false).1 rfl,
   ((pipeline_checker_gates_every_pass failChecker [] [] [] idPass emptyModule
      emptyModule PassError.invariantViolation false false).2 rfl rfl).1⟩

/-! ## Theorems for claims C4, C6 -/

/-- Helper: the pass loop with the acyclicity checker installed keeps
acyclicity: starting from an acyclic module, when the loop succeeds the
final module is acyclic, because every intermediate module was checked
right after the pass that produced it. -/
theorem pipelineGo_keeps_acyclic (passes : List HloPass) :
    ∀ (m m' : HloModule) (ch ch' : Bool), moduleAcyclic m = true →
      pipelineGo acyclicityChecker passes m ch = Except.ok (ch', m') →
      moduleAcyclic m' = true := by
  induction passes with
  | nil =>
    intro m m' ch ch' hm h
    simp only [pipelineGo, Except.ok.injEq, Prod.mk.injEq] at h
    rw [← h.2]
    exact hm
  | cons p ps ih =>
    intro m m' ch ch' hm h
    cases hp : p m with
    | error e => simp [pipelineGo, hp] at h
    | ok bc =>
      obtain ⟨c, m₁⟩ := bc
      cases hc : acyclicityChecker m₁ with
      | error e => simp [pipelineGo, hp, hc] at h
      | ok u =>
        simp only [pipelineGo] at h
        rw [hp] at h
        simp only [] at h
        rw [hc] at h
        have hm₁ : moduleAcyclic m₁ = true := by
          cases hb : moduleAcyclic m₁ with
          | true => rfl
          | false => simp [acyclicityChecker, hb] at hc
        exact ih m₁ m' (ch || c) ch' hm₁ h

/-- Claim C4: every module a run of the checked pipeline produces has an
acyclic operand graph in each of its computations: the acyclicity
invariant is checked before the first pass and re-established after every
pass, so a pass that broke it would abort the run instead of producing a
module. -/
theorem pipeline_output_acyclic (passes : List HloPass) (m m' : HloModule)
    (ch : Bool)
    (h : runPipeline acyclicityChecker passes m = Except.ok (ch, m')) :
    moduleAcyclic m' = true := by
  cases hc : acyclicityChecker m with
  | error e => simp [runPipeline, hc] at h
  | ok u =>
    simp only [runPipeline] at h
    rw [hc] at h
    have hm : moduleAcyclic m = true := by
      cases hb : moduleAcyclic m with
      | true => rfl
      | false => simp [acyclicityChecker, hb] at hc
    exact pipelineGo_keeps_acyclic passes m m' false ch hm h

/-- Concrete run of pipeline_output_acyclic: the no-op pipeline over the
parameter/negate module succeeds and its output is acyclic. -/
theorem pipeline_output_acyclic_witness :
    moduleAcyclic exUseModule = true :=
  pipeline_output_acyclic [idPass] exUseModule exUseModule false rfl

/-- Claim C6: the constant-folding round trip: on the computation
add(constant(2.0), constant(3.0)) the folding pass leaves a single
constant(5.0) instruction, of the same shape (and id) as the original
add, as the root. -/
theorem constant_folding_round_trip :
    constantFoldingRun exComp = ⟨[exFolded], 2⟩ ∧
    exFolded.shape = exAdd.shape ∧
    exFolded.literal = some (2 + 3) := by
  decide

/-! ## Theorems for claim C5 -/

/-- Helper: a filter that keeps the length of the list kept every
element. -/
theorem filter_length_eq_self {α : Type} (p : α → Bool) :
    ∀ l : List α, (l.filter p).length = l.length → l.filter p = l := by
  intro l
  induction l with
  | nil => intro _; rfl
  | cons a t ih =>
    intro h
    cases hpa : p a with
    | true =>
      rw [List.filter_cons_of_pos hpa] at h ⊢
      simp only [List.length_cons, Nat.succ.injEq] at h
      rw [ih h]
    | false =>
      rw [List.filter_cons_of_neg (by simp [hpa])] at h
      have hle := List.length_filter_le p t
      simp only [List.length_cons] at h
      omega

/-- Helper: the removal test of dead-code elimination rejects parameters
and the root instruction. -/
theorem removableDead_false_of_keep (c : HloComputation) (i : HloInstruction)
    (h : i.opcode = HloOpcode.parameter ∨ i.id = c.rootId) :
    removableDead c i = false := by
  cases h with
  | inl h => simp [removableDead, h]
  | inr h => simp [removableDead, h]

/-- Helper: one removal round keeps the root id. -/
theorem dceRound_rootId (c : HloComputation) : (dceRound c).rootId = c.rootId := rfl

/-- Helper: with a budget of at least the instruction count, the removal
loop ends at a fixed point of dceRound (every round that acts strictly
shrinks the instruction list, so the budget cannot run out earlier). -/
theorem dceLoop_reaches_fix :
    ∀ (n : Nat) (c : HloComputation) (ch : Bool), c.instructions.length ≤ n →
      dceRound (dceLoop n c ch).2 = (dceLoop n c ch).2 := by
  intro n
  induction n with
  | zero =>
    intro c ch h
    obtain ⟨instrs, root⟩ := c
    simp only [dceLoop]
    have hnil : instrs = [] := by
      simpa using Nat.le_zero.mp h
    subst hnil
    simp [dceRound]
  | succ n ih =>
    intro c ch h
    simp only [dceLoop]
    split
    · rename_i hcond
      have hlen : (c.instructions.filter fun i => ! removableDead c i).length
          = c.instructions.length := by
        simpa [dceRound] using hcond
      have hkeep := filter_length_eq_self _ _ hlen
      unfold dceRound
      rw [hkeep]
    · rename_i hcond
      apply ih
      have hle : (dceRound c).instructions.length ≤ c.instructions.length :=
        List.length_filter_le _ _
      have hne : (dceRound c).instructions.length ≠ c.instructions.length := by
        simpa using hcond
      omega

/-- Helper: a computation already at a fixed point of the removal round
passes through dead-code elimination unchanged, with changed = false. -/
theorem dceRun_at_fix (r : HloComputation) (h : dceRound r = r) :
    dceRunOnComputation r = (false, r) := by
  unfold dceRunOnComputation
  cases hn : r.instructions.length with
  | zero => rfl
  | succ k => simp [dceLoop, h]

/-- Helper: the removal loop never drops a parameter or the root
instruction, and keeps the root id. -/
theorem dceLoop_keeps :
    ∀ (n : Nat) (c : HloComputation) (ch : Bool) (i : HloInstruction),
      i ∈ c.instructions → (i.opcode = HloOpcode.parameter ∨ i.id = c.rootId) →
      i ∈ (dceLoop n c ch).2.instructions ∧ (dceLoop n c ch).2.rootId = c.rootId := by
  intro n
  induction n with
  | zero => intro c ch i hi _; exact ⟨hi, rfl⟩
  | succ n ih =>
    intro c ch i hi hpr
    simp only [dceLoop]
    split
    · exact ⟨hi, rfl⟩
    · have hmem : i ∈ (dceRound c).instructions := by
        unfold dceRound
        exact List.mem_filter.mpr ⟨hi, by simp [removableDead_false_of_keep c i hpr]⟩
      have hpr' : i.opcode = HloOpcode.parameter ∨ i.id = (dceRound c).rootId := hpr
      obtain ⟨h1, h2⟩ := ih (dceRound c) true i hmem hpr'
      exact ⟨h1, h2⟩

/-- Claim C5: dead-code elimination is idempotent - the second of two
immediately successive runs over a module reports changed = false - and
it never removes a parameter or the root instruction of a computation it
cleans. -/
theorem dce_idempotent_and_safe (m : HloModule) (c : HloComputation)
    (i : HloInstruction) (hc : c ∈ m.computations) (hi : i ∈ c.instructions)
    (hpr : i.opcode = HloOpcode.parameter ∨ i.id = c.rootId) :
    (dceRun (dceRun m).2).1 = false ∧
    i ∈ (dceRunOnComputation c).2.instructions ∧
    (dceRunOnComputation c).2 ∈ (dceRun m).2.computations := by
  have hfix : ∀ c' : HloComputation,
      dceRunOnComputation (dceRunOnComputation c').2
        = (false, (dceRunOnComputation c').2) := by
    intro c'
    exact dceRun_at_fix _ (dceLoop_reaches_fix c'.instructions.length c' false
      (Nat.le_refl _))
  refine ⟨?_, ?_, ?_⟩
  · have hfst : (dceRun (dceRun m).2).1
        = ((dceRun m).2.computations.map dceRunOnComputation).any fun r => r.1 := rfl
    have hsnd : (dceRun m).2.computations
        = (m.computations.map dceRunOnComputation).map fun r => r.2 := rfl
    rw [hfst, List.any_eq_false]
    intro x hx
    rw [hsnd] at hx
    obtain ⟨y, hy, rfl⟩ := List.mem_map.mp hx
    obtain ⟨r, hr, rfl⟩ := List.mem_map.mp hy
    obtain ⟨z, hz, rfl⟩ := List.mem_map.mp hr
    simp [hfix z]
  · exact (dceLoop_keeps c.instructions.length c false i hi hpr).1
  · simp only [dceRun, List.map_map, List.mem_map]
    exact ⟨c, hc, rfl⟩

/-- Concrete run of dce_idempotent_and_safe on the parameter/negate
module. -/
theorem dce_idempotent_and_safe_witness :
    (dceRun (dceRun exUseModule).2).1 = false ∧
    paramInst ∈ (dceRunOnComputation exUseComp).2.instructions ∧
    (dceRunOnComputation exUseComp).2 ∈ (dceRun exUseModule).2.computations :=
  dce_idempotent_and_safe exUseModule exUseComp paramInst (by decide) (by decide)
    (Or.inl rfl)

/-! ## Theorems for claim C7 -/

/-- Claim C7: the construction and rewrite primitives are atomic on
error: whenever add_instruction, replace_instruction or
remove_instruction signals an error, the computation they return is
exactly the one they were given (all checks run before any mutation);
and remove_instruction rejects, with InstructionInUse, the removal of
any instruction that still has a consumer or is the root. -/
theorem mutation_primitives_atomic (c : HloComputation) (opcode : HloOpcode)
    (operands : List Nat) (shape : Shape) (n oldId newId i : Nat)
    (e₁ e₂ e₃ : PassError) :
    ((add_instruction c opcode operands shape n).2 = some e₁ →
      (add_instruction c opcode operands shape n).1 = c) ∧
    ((replace_instruction c oldId newId).2 = some e₂ →
      (replace_instruction c oldId newId).1 = c) ∧
    ((remove_instruction c i).2 = some e₃ →
      (remove_instruction c i).1 = c) ∧
    (hasConsumer c.instructions i = true ∨ c.rootId = i →
      remove_instruction c i = (c, some PassError.instructionInUse)) := by
  refine ⟨?_, ?_, ?_, ?_⟩
  · unfold add_instruction
    split
    · split
      · split
        · intro h; simp at h
        · intro _; rfl
      · intro _; rfl
    · split
      · intro h; simp at h
      · intro _; rfl
  · unfold replace_instruction
    split
    · split
      · intro h; simp at h
      · intro _; rfl
    · intro _; rfl
  · unfold remove_instruction
    split
    · intro _; rfl
    · intro h; simp at h
  · intro hin
    have hcond : (hasConsumer c.instructions i || (c.rootId == i)) = true := by
      rcases hin with h | h
      · simp [h]
      · simp [h]
    simp [remove_instruction, hcond]

/-- Concrete runs of mutation_primitives_atomic on the parameter/negate
computation: removing the still-consumed parameter is rejected with
InstructionInUse and changes nothing; an add with wrong arity and a
replace against a missing id also leave the computation as it was. -/
theorem mutation_primitives_atomic_witness :
    remove_instruction exUseComp 0 = (exUseComp, some PassError.instructionInUse) ∧
    (add_instruction exUseComp HloOpcode.add [] f32Scalar 5).1 = exUseComp ∧
    (replace_instruction exUseComp 0 5).1 = exUseComp :=
  ⟨(mutation_primitives_atomic exUseComp HloOpcode.add [] f32Scalar 5 0 5 0
      PassError.invalidOperandCount PassError.shapeMismatch
      PassError.instructionInUse).2.2.2 (Or.inl rfl),
   (mutation_primitives_atomic exUseComp HloOpcode.add [] f32Scalar 5 0 5 0
      PassError.invalidOperandCount PassError.shapeMismatch
      PassError.instructionInUse).1 rfl,
   (mutation_primitives_atomic exUseComp HloOpcode.add [] f32Scalar 5 0 5 0
      PassError.invalidOperandCount PassError.shapeMismatch
      PassError.instructionInUse).2.1 rfl⟩
